import Mathlib

/-!
Shallow embedding of the RAG assistant repository (conversation memory,
enhanced retriever quality analysis, hybrid web-search merging), together
with theorems settling the specification claims about it.

Python machine behaviours that the embedded functions depend on are
modelled explicitly: negative-index slicing (`pyLastSlice`), substring
membership (`pyContains`), truthiness of strings/ints where the code
relies on it, and `list.index` first-occurrence semantics
(`List.indexOf`).  File and network I/O (`_save_history`, `_load_history`,
the HTTP calls of the search engines) are not modelled; the embedded
functions cover the pure data transformations the claims are about.
-/

namespace RagSpec

/-- Model of a Python `datetime` value: we only ever observe it through
the three `strftime`/`isoformat` renderings the code uses, so the model
carries those renderings as fields. -/
structure Timestamp where
  isoformat : String
  hm : String
  ymdhms : String
deriving DecidableEq

/-- `ConversationTurn` dataclass from `conversation_memory.py`.
`metadata : Dict[str, Any]` is modelled as an association list of
strings; the code never reads it back, but it participates in dataclass
equality, which `list.index` uses. -/
structure ConversationTurn where
  userQuery : String
  aiResponse : String
  timestamp : Timestamp
  sessionId : String
  metadata : List (String × String) := []
  retrievedDocs : List String := []
  contextSummary : String := ""
  keywords : List String := []
deriving DecidableEq

/-- The fixed English grammar-term list of `_extract_keywords`. -/
def englishGrammarTerms : List String :=
  ["present perfect", "past tense", "future tense", "conditionals",
   "articles", "prepositions", "conjunctions", "verbs", "nouns",
   "adjectives", "adverbs", "pronouns", "tense", "aspect",
   "grammar", "syntax", "clause", "phrase", "sentence"]

/-- The fixed Chinese grammar-term list of `_extract_keywords`. -/
def chineseGrammarTerms : List String :=
  ["现在完成时", "过去时", "将来时", "虚拟语气",
   "冠词", "介词", "连词", "动词", "名词",
   "形容词", "副词", "代词", "时态", "体态",
   "语法", "句法", "从句", "短语", "句子"]

/-- Python substring membership `needle in hay` (contiguous substring of
code points). -/
def pyContains (needle hay : String) : Bool :=
  decide (needle.data <:+: hay.data)

/-- Python `str.lower()`, modelled as per-character ASCII lowercasing
(the semantics of `String.toLower`, written as a structural map).  The
non-ASCII text in this repository is Chinese, which lowercasing leaves
unchanged. -/
def pyLower (s : String) : String := String.mk (s.data.map Char.toLower)

/-- `_extract_keywords`: collect every grammar term occurring (lowercased)
in the lowercased text, then `list(set(keywords))`.  Python's set
iteration order is unspecified; we model the dedup with `eraseDups` (here
the identity, as the term lists are duplicate-free), and no claim depends
on the order of this list, only on its membership. -/
def extractKeywords (text : String) : List String :=
  let textLower := pyLower text
  (((englishGrammarTerms ++ chineseGrammarTerms).filter
      (fun term => pyContains (pyLower term) textLower))).eraseDups

/-- The topic list of `_extract_main_topic`. -/
def mainTopics : List String :=
  ["时态", "语法", "冠词", "虚拟语气", "条件句", "从句"]

/-- `_extract_main_topic`: first topic contained in the lowercased text,
else the default topic. -/
def extractMainTopic (text : String) : String :=
  ((mainTopics.find? (fun topic => pyContains topic (pyLower text)))).getD "英语语法"

/-- `_generate_summary`. -/
def generateSummary (userQuery : String) (_aiResponse : String) : String :=
  "用户询问了关于" ++ extractMainTopic userQuery ++ "的问题"

/-- Python slice start index: the effective start position of `l[i:]` for
an `int` index `i` over a list of length `n`. -/
def pySliceStart (i : Int) (n : Nat) : Nat :=
  if i < 0 then (n + i).toNat else min i.toNat n

/-- Python `l[-k:]` for an `int` count `k` (note `l[-0:] = l[0:] = l`,
which is what makes `max_history = 0` fail to trim). -/
def pyLastSlice (k : Int) (l : List α) : List α :=
  l.drop (pySliceStart (-k) l.length)

/-- `ConversationMemory` state: `max_history`, `max_context_length`, the
history list, and the current session id.  `memory_file` and the
load/save I/O are not modelled. -/
structure ConversationMemory where
  maxHistory : Int := 10
  maxContextLength : Nat := 2000
  conversationHistory : List ConversationTurn := []
  currentSessionId : String := ""
deriving DecidableEq

/-- The pure history update inside `add_conversation_turn`: append the
new turn, then trim with `history[-max_history:]` when the length
exceeds `max_history`. -/
def addHistory (maxHistory : Int) (hist : List ConversationTurn)
    (turn : ConversationTurn) : List ConversationTurn :=
  let h := hist ++ [turn]
  if (h.length : Int) > maxHistory then pyLastSlice maxHistory h else h

/-- The caller-supplied arguments of one `add_conversation_turn` call
(the timestamp stands for `datetime.now()` at call time). -/
structure TurnInput where
  userQuery : String
  aiResponse : String
  metadata : List (String × String) := []
  retrievedDocs : List String := []
  timestamp : Timestamp
deriving DecidableEq

/-- The turn object constructed by `add_conversation_turn`. -/
def mkTurn (sessionId : String) (inp : TurnInput) : ConversationTurn :=
  { userQuery := inp.userQuery
    aiResponse := inp.aiResponse
    timestamp := inp.timestamp
    sessionId := sessionId
    metadata := inp.metadata
    retrievedDocs := inp.retrievedDocs
    keywords := extractKeywords (inp.userQuery ++ " " ++ inp.aiResponse)
    contextSummary := generateSummary inp.userQuery inp.aiResponse }

/-- `add_conversation_turn` (the `_save_history` file write is I/O and
not modelled). -/
def addConversationTurn (mem : ConversationMemory) (inp : TurnInput) :
    ConversationMemory :=
  let turn := mkTurn mem.currentSessionId inp
  { mem with conversationHistory := addHistory mem.maxHistory mem.conversationHistory turn }

/-- A sequence of `add_conversation_turn` calls. -/
def addTurns (mem : ConversationMemory) (inps : List TurnInput) :
    ConversationMemory :=
  inps.foldl addConversationTurn mem

/-- `len(set(current_keywords) & set(turn_keywords))`. -/
def overlapCount (current turnKeywords : List String) : Nat :=
  ((current.eraseDups).filter (fun k => decide (k ∈ turnKeywords))).length

/-- The per-turn score of `_get_relevant_context`:
`overlap * 2 + recency_score`, with
`recency_score = len(history) - history.index(turn)` — note
`list.index` finds the first occurrence of an equal turn. -/
def totalScore (hist : List ConversationTurn) (currentKeywords : List String)
    (turn : ConversationTurn) : Nat :=
  let overlap := overlapCount currentKeywords turn.keywords
  let recencyScore := hist.length - List.indexOf turn hist
  overlap * 2 + recencyScore

/-- Descending order on scored turns, the sort key of
`scored_turns.sort(key=lambda x: x[0], reverse=True)`. -/
def scoreDesc (x y : Nat × ConversationTurn) : Prop := y.1 ≤ x.1

instance : DecidableRel scoreDesc := fun x y => Nat.decLe y.1 x.1

instance : IsTotal (Nat × ConversationTurn) scoreDesc :=
  ⟨fun a b => (Nat.le_total b.1 a.1).imp id id⟩

instance : IsTrans (Nat × ConversationTurn) scoreDesc :=
  ⟨fun _ _ _ hab hbc => le_trans hbc hab⟩

/-- `_get_relevant_context`: score the last five turns, sort descending
by score (Python's sort is stable; so is `insertionSort`), return the
turns.  `history[-5:]` is `drop (length - 5)`. -/
def getRelevantContext (hist : List ConversationTurn) (query : String) :
    List ConversationTurn :=
  if hist = [] then []
  else
    let currentKeywords := extractKeywords query
    let window := hist.drop (hist.length - 5)
    let scored := window.map (fun t => (totalScore hist currentKeywords t, t))
    (List.insertionSort scoreDesc scored).map Prod.snd

/-- `_format_context_turn`. -/
def formatContextTurn (turn : ConversationTurn) : String :=
  "**[" ++ turn.timestamp.hm ++ "] 用户:** " ++ turn.userQuery ++
    "\n**助手:** " ++ turn.aiResponse

/-- The formatted snippets offered for inclusion by
`get_context_for_query`, in relevance order. -/
def contextSnippets (mem : ConversationMemory) (query : String) : List String :=
  (getRelevantContext mem.conversationHistory query).map formatContextTurn

/-- The greedy inclusion loop of `get_context_for_query`: include each
snippet whole unless it would push the running length past the bound,
in which case the loop `break`s. -/
def buildContextParts (maxLength : Nat) : Nat → List String → List String
  | _, [] => []
  | curLen, s :: rest =>
      if curLen + s.length > maxLength then []
      else s :: buildContextParts maxLength (curLen + s.length) rest

/-- `max_length = max_length or self.max_context_length`: Python `or`
replaces both `None` and the falsy `0` by the default. -/
def effectiveMaxLength (mem : ConversationMemory) (maxLength : Option Nat) : Nat :=
  match maxLength with
  | none => mem.maxContextLength
  | some v => if v = 0 then mem.maxContextLength else v

/-- The context header `f"📝 **对话历史 (最近{len(context_parts)}轮):**\n\n"`. -/
def contextHeader (numParts : Nat) : String :=
  "📝 **对话历史 (最近" ++ toString numParts ++ "轮):**\n\n"

/-- `get_context_for_query`. -/
def getContextForQuery (mem : ConversationMemory) (query : String)
    (maxLength : Option Nat) : String :=
  if mem.conversationHistory = [] then ""
  else
    let parts := buildContextParts (effectiveMaxLength mem maxLength) 0
      (contextSnippets mem query)
    if parts = [] then ""
    else contextHeader parts.length ++ String.intercalate "\n\n" parts

/-- A run of sixty `=` characters, the banner of `_export_as_text`. -/
def bannerLine : String := String.mk (List.replicate 60 '=')

/-- A run of forty `-` characters, the per-turn separator of
`_export_as_text`. -/
def dashLine : String := String.mk (List.replicate 40 '-')

/-- The lines `_export_as_text` appends for the `i`-th turn (1-based). -/
def exportTurnLines (i : Nat) (turn : ConversationTurn) : List String :=
  ["\n[" ++ toString i ++ "] " ++ turn.timestamp.ymdhms,
   "用户: " ++ turn.userQuery,
   "助手: " ++ turn.aiResponse] ++
  (if turn.keywords = [] then []
   else ["关键词: " ++ String.intercalate ", " turn.keywords]) ++
  [dashLine]

/-- `_export_as_text`. -/
def exportAsText (hist : List ConversationTurn) : String :=
  String.intercalate "\n"
    ([bannerLine, "对话历史导出", bannerLine] ++
      (hist.enum.map (fun p => exportTurnLines (p.1 + 1) p.2)).flatten)

/-- One entry of `_export_as_json`.  The rendering models the shape of
`json.dumps(..., ensure_ascii=False)`; string escaping and the
two-space indentation are not modelled, as no claim depends on the
rendered JSON text. -/
def exportJsonEntry (turn : ConversationTurn) : String :=
  "\x7b\"timestamp\": \"" ++ turn.timestamp.isoformat ++
    "\", \"user\": \"" ++ turn.userQuery ++
    "\", \"assistant\": \"" ++ turn.aiResponse ++
    "\", \"session\": \"" ++ turn.sessionId ++
    "\", \"keywords\": [" ++
    String.intercalate ", " (turn.keywords.map (fun k => "\"" ++ k ++ "\"")) ++
    "]\x7d"

/-- `_export_as_json`. -/
def exportAsJson (hist : List ConversationTurn) : String :=
  "[" ++ String.intercalate ", " (hist.map exportJsonEntry) ++ "]"

/-- `export_conversation`: dispatch on the format string; any format
other than `"json"` and `"txt"` raises
`ValueError("Unsupported export format")`, modelled as `Except.error`. -/
def exportConversation (hist : List ConversationTurn) (format : String) :
    Except String String :=
  if format = "json" then Except.ok (exportAsJson hist)
  else if format = "txt" then Except.ok (exportAsText hist)
  else Except.error "Unsupported export format"

/-- The metadata keys of a LangChain `Document` that this repository
reads or writes; absent keys (`dict.get` returning `None`) are `none`. -/
structure DocMetadata where
  sourceType : Option String := none
  retrievalMethod : Option String := none
  source : Option String := none
  title : Option String := none
  engine : Option String := none
  query : Option String := none
deriving DecidableEq

/-- A LangChain `Document`: page content plus metadata. -/
structure Document where
  pageContent : String
  metadata : DocMetadata := {}
deriving DecidableEq

/-- The dedup key of `_deduplicate_and_rank` and `_enhanced_retrieval`:
`doc.page_content[:100]`, with no normalization. -/
def contentKey (doc : Document) : String :=
  doc.pageContent.take 100

/-- The shared dedup loop of `_deduplicate_and_rank`: walk the documents
keeping the first one seen for each content key.  The Python code runs
this loop once over the local documents and then continues over the web
documents with the same `seen_content` set and `unique_docs` list, which
is exactly one pass over their concatenation. -/
def dedupByContent (seen : List String) : List Document → List Document
  | [] => []
  | d :: rest =>
      if contentKey d ∈ seen then dedupByContent seen rest
      else d :: dedupByContent (contentKey d :: seen) rest

/-- The `seen_content` set after the dedup loop has processed a list
(modelled as the list of keys it holds). -/
def seenAfter (seen : List String) : List Document → List String
  | [] => seen
  | d :: rest =>
      if contentKey d ∈ seen then seenAfter seen rest
      else seenAfter (contentKey d :: seen) rest

/-- `_deduplicate_and_rank`: keep only documents whose metadata
`source_type` is `"local"` or `"web"` (in that priority order), dedup on
the first 100 characters of content with first-seen-wins, and cap the
result at 8 documents. -/
def deduplicateAndRank (docs : List Document) : List Document :=
  let localDocs := docs.filter (fun d => decide (d.metadata.sourceType = some "local"))
  let webDocs := docs.filter (fun d => decide (d.metadata.sourceType = some "web"))
  (dedupByContent [] (localDocs ++ webDocs)).take 8

/-- One raw engine result of `_web_search`: the dict fields read via
`result.get(..., "")`. -/
structure SearchResult where
  title : String := ""
  content : String := ""
  url : String := ""
  source : String := ""
deriving DecidableEq

/-- The `Document` that `_web_search` builds from a kept raw result. -/
def mkWebDocument (enhancedQuery : String) (r : SearchResult) : Document :=
  { pageContent := r.content
    metadata := { source := some r.url
                  title := some r.title
                  sourceType := some "web"
                  engine := some r.source
                  query := some enhancedQuery } }

/-- The per-engine result processing of `_web_search`: keep a raw result
exactly when `content and len(content) > 50` (Python truthiness of the
string plus the strict length test), and wrap it as a web `Document`. -/
def webResultDocs (enhancedQuery : String) (results : List SearchResult) :
    List Document :=
  (results.filter
      (fun r => decide (r.content ≠ "") && decide (50 < r.content.length))).map
    (mkWebDocument enhancedQuery)

/-- The quality report returned by `analyze_retrieval_quality`.  The
empty-input branch of the Python code returns a dict without the
`documents_preview` key, hence the `Option`. -/
structure RetrievalQualityReport where
  query : String
  numResults : Nat
  avgContentLength : ℚ
  qualityScore : ℚ
  recommendations : List String
  documentsPreview : Option (List String)
deriving DecidableEq

/-- `analyze_retrieval_quality` from `retriever_enhanced.py`:
`quality_score = min(100, len(docs) * 20 + avg_length / 20)` with
`avg_length = np.mean(content_lengths)` (exact rational arithmetic). -/
def analyzeRetrievalQuality (query : String) (docs : List Document) :
    RetrievalQualityReport :=
  if docs = [] then
    { query := query
      numResults := 0
      avgContentLength := 0
      qualityScore := 0
      recommendations := ["未检索到文档，请检查查询或知识库"]
      documentsPreview := none }
  else
    let contentLengths : List Nat := docs.map (fun d => d.pageContent.length)
    let avgLength : ℚ := (contentLengths.sum : ℚ) / (contentLengths.length : ℚ)
    let qualityScore : ℚ := min 100 ((docs.length : ℚ) * 20 + avgLength / 20)
    let recommendations :=
      (if docs.length < 3 then ["检索结果较少，考虑降低相似度阈值"] else []) ++
      (if avgLength < 100 then ["文档片段较短，可能缺乏上下文"] else []) ++
      (if qualityScore < 60 then ["检索质量偏低，建议优化查询或检索策略"] else [])
    { query := query
      numResults := docs.length
      avgContentLength := avgLength
      qualityScore := qualityScore
      recommendations := recommendations
      documentsPreview :=
        some ((docs.take 3).map (fun d => d.pageContent.take 100 ++ "...")) }

/-! ### Concrete fixtures used by counterexamples and witnesses -/

/-- A retrieved passage whose content is exactly 200 characters long. -/
def docOf200 : Document := { pageContent := String.mk (List.replicate 200 'a') }

/-- Five retrieved passages of content length 200 each. -/
def fiveDocs200 : List Document := List.replicate 5 docOf200

/-- A placeholder timestamp value. -/
def tsEmpty : Timestamp := { isoformat := "", hm := "", ymdhms := "" }

/-- Eleven distinct `add_conversation_turn` inputs. -/
def elevenInputs : List TurnInput :=
  (List.range 11).map
    (fun i => { userQuery := toString i, aiResponse := "r", timestamp := tsEmpty })

/-- The first of the eleven inputs. -/
def firstOfEleven : TurnInput :=
  { userQuery := "0", aiResponse := "r", timestamp := tsEmpty }

/-- A passage tagged as coming from the local knowledge base. -/
def localDoc (s : String) : Document :=
  { pageContent := s, metadata := { sourceType := some "local" } }

/-- A passage tagged as coming from web search. -/
def webDoc (s : String) : Document :=
  { pageContent := s, metadata := { sourceType := some "web" } }

/-- Nine local passages with pairwise distinct dedup keys. -/
def nineLocals : List Document :=
  (["d0", "d1", "d2", "d3", "d4", "d5", "d6", "d7", "d8"]).map localDoc

/-- A web passage whose dedup key coincides with the ninth local one. -/
def webDup : Document := webDoc "d8"

/-- A local and a web passage with identical content. -/
def sharedLocal : Document := localDoc "shared"

/-- The web twin of `sharedLocal`. -/
def sharedWeb : Document := webDoc "shared"

/-- An earlier conversation turn with no grammar keywords. -/
def turnA : ConversationTurn :=
  { userQuery := "a", aiResponse := "x", timestamp := tsEmpty, sessionId := "s" }

/-- A later conversation turn with no grammar keywords. -/
def turnB : ConversationTurn :=
  { userQuery := "b", aiResponse := "x", timestamp := tsEmpty, sessionId := "s" }

/-- A memory holding a single conversation turn. -/
def oneTurnMemory : ConversationMemory :=
  { conversationHistory :=
      [{ userQuery := "hi", aiResponse := "hello", timestamp := tsEmpty,
         sessionId := "s" }],
    currentSessionId := "s" }

/-! ### Lemmas about `add_conversation_turn` history trimming -/

theorem pyLastSlice_of_pos {k : Int} (hk : 0 < k) (l : List α) :
    pyLastSlice k l = l.drop (l.length - k.toNat) := by
  unfold pyLastSlice pySliceStart
  rw [if_pos (by omega : -k < 0)]
  congr 1
  omega

theorem addHistory_foldl (maxH : Int) (hmax : 1 ≤ maxH)
    (ts : List ConversationTurn) :
    ts.foldl (addHistory maxH) [] = ts.drop (ts.length - maxH.toNat) := by
  induction ts using List.reverseRecOn with
  | nil => simp
  | append_singleton l a ih =>
      rw [List.foldl_append, List.foldl_cons, List.foldl_nil, ih]
      unfold addHistory
      by_cases hlen : l.length < maxH.toNat
      · have hdrop : l.length - maxH.toNat = 0 := by omega
        rw [hdrop, List.drop_zero]
        rw [if_neg (by
          simp only [List.length_append, List.length_cons, List.length_nil]
          omega)]
        have hdrop2 : (l ++ [a]).length - maxH.toNat = 0 := by
          simp only [List.length_append, List.length_cons, List.length_nil]
          omega
        rw [hdrop2, List.drop_zero]
      · have hlen2 : (l.drop (l.length - maxH.toNat)).length = maxH.toNat := by
          simp only [List.length_drop]
          omega
        rw [if_pos (by
          simp only [List.length_append, List.length_cons, List.length_nil, hlen2]
          omega)]
        rw [pyLastSlice_of_pos (by omega)]
        have e1 : (l.drop (l.length - maxH.toNat) ++ [a]).length - maxH.toNat = 1 := by
          simp only [List.length_append, hlen2, List.length_cons, List.length_nil]
          omega
        have e2 : (l ++ [a]).length - maxH.toNat = l.length + 1 - maxH.toNat := by
          simp only [List.length_append, List.length_cons, List.length_nil]
        rw [e1, e2,
          List.drop_append_of_le_length (by rw [hlen2]; omega),
          List.drop_drop,
          List.drop_append_of_le_length (by omega : l.length + 1 - maxH.toNat ≤ l.length)]
        have e3 : l.length - maxH.toNat + 1 = l.length + 1 - maxH.toNat := by omega
        rw [e3]

theorem addTurns_eq (mem : ConversationMemory) (inps : List TurnInput) :
    (addTurns mem inps).conversationHistory =
      (inps.map (mkTurn mem.currentSessionId)).foldl (addHistory mem.maxHistory)
        mem.conversationHistory ∧
    (addTurns mem inps).maxHistory = mem.maxHistory ∧
    (addTurns mem inps).currentSessionId = mem.currentSessionId := by
  induction inps generalizing mem with
  | nil => exact ⟨rfl, rfl, rfl⟩
  | cons inp rest ih =>
      have h := ih (addConversationTurn mem inp)
      exact ⟨h.1, h.2.1, h.2.2⟩

/-! ### Lemmas about the dedup loop of `_deduplicate_and_rank` -/

theorem mem_of_mem_dedupByContent {seen : List String} {l : List Document}
    {d : Document} (h : d ∈ dedupByContent seen l) : d ∈ l := by
  induction l generalizing seen with
  | nil => simp [dedupByContent] at h
  | cons a rest ih =>
      simp only [dedupByContent] at h
      split at h
      · exact List.mem_cons_of_mem _ (ih h)
      · rcases List.mem_cons.mp h with h1 | h2
        · exact h1 ▸ List.mem_cons_self _ _
        · exact List.mem_cons_of_mem _ (ih h2)

theorem dedup_key_ne_of_mem_seen {seen : List String} {l : List Document}
    {p : String} (hp : p ∈ seen) :
    ∀ d ∈ dedupByContent seen l, contentKey d ≠ p := by
  induction l generalizing seen with
  | nil => simp [dedupByContent]
  | cons a rest ih =>
      simp only [dedupByContent]
      split
      · exact ih hp
      · rename_i hnot
        intro d hd
        rcases List.mem_cons.mp hd with rfl | h2
        · intro hk
          exact hnot (hk ▸ hp)
        · exact ih (List.mem_cons_of_mem _ hp) d h2

theorem dedup_keys_nodup (seen : List String) (l : List Document) :
    ((dedupByContent seen l).map contentKey).Nodup := by
  induction l generalizing seen with
  | nil => simp [dedupByContent]
  | cons a rest ih =>
      simp only [dedupByContent]
      split
      · exact ih seen
      · simp only [List.map_cons, List.nodup_cons]
        refine ⟨fun hmem => ?_, ih _⟩
        rcases List.mem_map.mp hmem with ⟨d, hd, hk⟩
        exact dedup_key_ne_of_mem_seen (List.mem_cons_self _ _) d hd hk

theorem dedup_covers {seen : List String} {l : List Document} {p : String}
    (hp : p ∉ seen) (hex : ∃ d ∈ l, contentKey d = p) :
    ∃ d ∈ dedupByContent seen l, contentKey d = p := by
  induction l generalizing seen with
  | nil =>
      obtain ⟨d0, hd0, _⟩ := hex
      exact absurd hd0 (List.not_mem_nil d0)
  | cons a rest ih =>
      obtain ⟨d0, hd0, hk0⟩ := hex
      simp only [dedupByContent]
      rcases List.mem_cons.mp hd0 with rfl | hmem
      · rw [if_neg (hk0 ▸ hp)]
        exact ⟨d0, List.mem_cons_self _ _, hk0⟩
      · by_cases hc : contentKey a ∈ seen
        · rw [if_pos hc]
          exact ih hp ⟨d0, hmem, hk0⟩
        · rw [if_neg hc]
          by_cases hpa : contentKey a = p
          · exact ⟨a, List.mem_cons_self _ _, hpa⟩
          · have hp2 : p ∉ contentKey a :: seen := by
              intro hmem2
              rcases List.mem_cons.mp hmem2 with h | h
              · exact hpa h.symm
              · exact hp h
            obtain ⟨d, hd, hkd⟩ := ih hp2 ⟨d0, hmem, hk0⟩
            exact ⟨d, List.mem_cons_of_mem _ hd, hkd⟩

theorem dedup_append (seen : List String) (l₁ l₂ : List Document) :
    dedupByContent seen (l₁ ++ l₂) =
      dedupByContent seen l₁ ++ dedupByContent (seenAfter seen l₁) l₂ := by
  induction l₁ generalizing seen with
  | nil => simp [dedupByContent, seenAfter]
  | cons a rest ih =>
      simp only [List.cons_append, dedupByContent, seenAfter]
      split
      · exact ih seen
      · simp [ih]

theorem mem_seenAfter_mono {seen : List String} {l : List Document} {p : String}
    (hp : p ∈ seen) : p ∈ seenAfter seen l := by
  induction l generalizing seen with
  | nil => exact hp
  | cons a rest ih =>
      simp only [seenAfter]
      split
      · exact ih hp
      · exact ih (List.mem_cons_of_mem _ hp)

theorem key_mem_seenAfter {seen : List String} {l : List Document} {d : Document}
    (hd : d ∈ l) : contentKey d ∈ seenAfter seen l := by
  induction l generalizing seen with
  | nil => exact absurd hd (List.not_mem_nil d)
  | cons a rest ih =>
      simp only [seenAfter]
      rcases List.mem_cons.mp hd with rfl | hmem
      · split
        · exact mem_seenAfter_mono (by assumption)
        · exact mem_seenAfter_mono (List.mem_cons_self _ _)
      · split
        · exact ih hmem
        · exact ih hmem

theorem filter_key_length_le_one {l : List Document} {p : String}
    (h : (l.map contentKey).Nodup) :
    (l.filter (fun d => decide (contentKey d = p))).length ≤ 1 := by
  induction l with
  | nil => simp
  | cons a rest ih =>
      simp only [List.map_cons, List.nodup_cons] at h
      by_cases hk : contentKey a = p
      · rw [List.filter_cons_of_pos (by simpa using hk)]
        have hrest : rest.filter (fun d => decide (contentKey d = p)) = [] := by
          rw [List.filter_eq_nil_iff]
          intro d hd
          simp only [decide_eq_true_eq]
          intro hdk
          apply h.1
          have hmm : contentKey d ∈ rest.map contentKey :=
            List.mem_map_of_mem contentKey hd
          rwa [hdk, ← hk] at hmm
        simp [hrest]
      · rw [List.filter_cons_of_neg (by simpa using hk)]
        exact ih h.2

/-! ### Lemmas about sorted lists -/

theorem sublist_pair_of_sorted {α : Type} (r : α → α → Prop) [IsTotal α r]
    {l : List α} {x y : α} (hs : l.Sorted r) (hx : x ∈ l) (hy : y ∈ l)
    (hxy : ¬ r y x) : List.Sublist [x, y] l := by
  obtain ⟨l₁, l₂, rfl⟩ := List.append_of_mem hx
  have hp : List.Pairwise r (l₁ ++ x :: l₂) := hs
  rcases List.mem_append.mp hy with hy1 | hy2
  · exact absurd ((List.pairwise_append.mp hp).2.2 y hy1 x
      (List.mem_cons_self _ _)) hxy
  · rcases List.mem_cons.mp hy2 with rfl | hy3
    · exact absurd ((total_of r y y).elim id id) hxy
    · have h1 : List.Sublist [y] l₂ := List.singleton_sublist.mpr hy3
      exact (h1.cons₂ x).trans (List.sublist_append_right l₁ (x :: l₂))

/-! ### Lemmas about the greedy context loop of `get_context_for_query` -/

theorem length_intercalate_go (acc sep : String) (l : List String) :
    (String.intercalate.go acc sep l).length =
      acc.length + (l.map String.length).sum + sep.length * l.length := by
  induction l generalizing acc with
  | nil => simp [String.intercalate.go]
  | cons a as ih =>
      simp only [String.intercalate.go]
      rw [ih]
      simp only [String.length_append, List.map_cons, List.sum_cons,
        List.length_cons]
      ring

theorem length_intercalate (sep : String) (l : List String) :
    (String.intercalate sep l).length =
      (l.map String.length).sum + sep.length * (l.length - 1) := by
  cases l with
  | nil => simp [String.intercalate]
  | cons a as =>
      show (String.intercalate.go a sep as).length = _
      rw [length_intercalate_go]
      simp only [List.map_cons, List.sum_cons, List.length_cons,
        Nat.add_sub_cancel]

theorem buildContextParts_sum (L : Nat) :
    ∀ (xs : List String) (cur : Nat), cur ≤ L →
      cur + ((buildContextParts L cur xs).map String.length).sum ≤ L := by
  intro xs
  induction xs with
  | nil =>
      intro cur h
      simpa [buildContextParts] using h
  | cons s rest ih =>
      intro cur hcur
      simp only [buildContextParts]
      split
      · simpa using hcur
      · rename_i hc
        simp only [List.map_cons, List.sum_cons]
        have h2 := ih (cur + s.length) (by omega)
        omega

theorem buildContextParts_front (L : Nat) :
    ∀ (xs : List String) (cur : Nat), buildContextParts L cur xs <+: xs := by
  intro xs
  induction xs with
  | nil =>
      intro cur
      simp [buildContextParts]
  | cons s rest ih =>
      intro cur
      simp only [buildContextParts]
      split
      · exact List.nil_prefix
      · obtain ⟨t, ht⟩ := ih (cur + s.length)
        exact ⟨t, by rw [List.cons_append, ht]⟩

theorem buildContextParts_stop (L : Nat) :
    ∀ (xs parts : List String) (s : String) (rest : List String) (cur : Nat),
      buildContextParts L cur xs = parts → xs = parts ++ s :: rest →
      L < cur + (parts.map String.length).sum + s.length := by
  intro xs
  induction xs with
  | nil =>
      intro parts s rest cur _ he
      exact absurd he (by cases parts <;> simp)
  | cons x xs2 ih =>
      intro parts s rest cur hb he
      simp only [buildContextParts] at hb
      split at hb
      · rename_i hc
        rw [← hb] at he
        rw [List.nil_append] at he
        injection he with he1 _
        subst he1
        rw [← hb]
        simpa using hc
      · rename_i hc
        cases parts with
        | nil => exact absurd hb (by simp)
        | cons p ps =>
            injection hb with hb1 hb2
            rw [List.cons_append] at he
            injection he with he1 he2
            have h3 := ih ps s rest (cur + x.length) hb2 he2
            subst hb1
            simp only [List.map_cons, List.sum_cons]
            omega

/-! ### Claim C1 -/

set_option maxRecDepth 8000 in
/-- C1 counterexample: for a query with exactly 5 retrieved passages of
content length 200 each, the code computes
`min(100, 5*20 + 200/20) = min(100, 110) = 100`, not the
`min(100, 50 + 30) = 80` stated by the claim (the code has no
`min(50, count*10)` base term and no `min(30, mean/50)` length term). -/
theorem quality_five_200_score_not_80 :
    fiveDocs200.length = 5 ∧
    fiveDocs200.all (fun d => d.pageContent.length == 200) = true ∧
    (analyzeRetrievalQuality "q" fiveDocs200).qualityScore = 100 ∧
    ¬ (analyzeRetrievalQuality "q" fiveDocs200).qualityScore = 80 := by
  have h5 : fiveDocs200.length = 5 := rfl
  have hall : fiveDocs200.all (fun d => d.pageContent.length == 200) = true := by
    decide
  have hmap : fiveDocs200.map (fun d => d.pageContent.length) =
      List.replicate 5 200 := by decide
  have hne : fiveDocs200 ≠ [] := by decide
  have hscore : (analyzeRetrievalQuality "q" fiveDocs200).qualityScore = 100 := by
    simp only [analyzeRetrievalQuality, if_neg hne, hmap, h5]
    norm_num
  refine ⟨h5, hall, hscore, ?_⟩
  rw [hscore]
  norm_num

/-- C1 (amended): for a query with exactly 5 retrieved passages each of
content length 200 characters, `analyze_retrieval_quality` returns
`numResults = 5`, `qualityScore = min(100, 5*20 + 200/20) = 100`, and an
empty recommendations list. -/
theorem quality_five_200_report (q : String) (docs : List Document)
    (h5 : docs.length = 5)
    (h200 : ∀ d ∈ docs, d.pageContent.length = 200) :
    (analyzeRetrievalQuality q docs).numResults = 5 ∧
    (analyzeRetrievalQuality q docs).qualityScore = 100 ∧
    (analyzeRetrievalQuality q docs).recommendations = [] := by
  have hne : docs ≠ [] := by
    intro h
    rw [h] at h5
    simp at h5
  have hmap : docs.map (fun d => d.pageContent.length) = List.replicate 5 200 := by
    rw [List.eq_replicate_iff]
    refine ⟨by simp [h5], ?_⟩
    intro b hb
    rcases List.mem_map.mp hb with ⟨d, hd, rfl⟩
    exact h200 d hd
  have hsum : (List.replicate 5 200).sum = 1000 := by decide
  have hlen : (List.replicate 5 200).length = 5 := by decide
  simp only [analyzeRetrievalQuality, if_neg hne, hmap, hsum, hlen, h5]
  norm_num

set_option maxRecDepth 8000 in
/-- Witness for C1 (amended): the concrete five-passage, 200-character
input satisfies the hypotheses and yields the amended report. -/
theorem quality_five_200_report_witness :
    (analyzeRetrievalQuality "q" fiveDocs200).numResults = 5 ∧
    (analyzeRetrievalQuality "q" fiveDocs200).qualityScore = 100 ∧
    (analyzeRetrievalQuality "q" fiveDocs200).recommendations = [] :=
  quality_five_200_report "q" fiveDocs200 (by decide) (by decide)

/-! ### Claim C5 -/

/-- C5 counterexample: with `maxHistory = 0` the trimming slice
`history[-0:]` is the whole list, so one `add_conversation_turn` call
leaves the history at length 1, violating `len(history) <= maxHistory`. -/
theorem history_bound_violated_at_zero :
    (addTurns { maxHistory := 0, currentSessionId := "s" }
        [{ userQuery := "u", aiResponse := "r", timestamp := tsEmpty }]
      ).conversationHistory.length = 1 ∧
    ¬ ((1 : Int) ≤ 0) := by
  constructor
  · rfl
  · decide

/-- C5 (amended): for every `maxHistory ≥ 1`, after any sequence of
`add_conversation_turn` calls starting from an empty history, the
history is exactly the suffix of the added turns that fits the bound —
so its length is at most `maxHistory` and evictions always remove the
oldest turns first (FIFO). -/
theorem history_bound_fifo (mem : ConversationMemory)
    (hmax : 1 ≤ mem.maxHistory)
    (hempty : mem.conversationHistory = []) (inps : List TurnInput) :
    (addTurns mem inps).conversationHistory =
      (inps.map (mkTurn mem.currentSessionId)).drop
        (inps.length - mem.maxHistory.toNat) ∧
    ((addTurns mem inps).conversationHistory.length : Int) ≤ mem.maxHistory := by
  have h := (addTurns_eq mem inps).1
  rw [hempty] at h
  rw [addHistory_foldl mem.maxHistory hmax] at h
  rw [List.length_map] at h
  refine ⟨h, ?_⟩
  rw [h]
  rw [List.length_drop, List.length_map]
  omega

/-- Witness for C5 (amended): after 11 `addTurn` calls with
`maxHistory = 10`, the history is the last 10 added turns. -/
theorem history_bound_fifo_witness :
    (addTurns { currentSessionId := "s" } elevenInputs).conversationHistory =
      (elevenInputs.map (mkTurn "s")).drop 1 ∧
    (((addTurns { currentSessionId := "s" } elevenInputs
      ).conversationHistory.length : Int) ≤ 10) :=
  history_bound_fifo { currentSessionId := "s" } (by decide) rfl elevenInputs

/-- C5 scenario check: after the 11 calls the history has length 10 and
the first call's turn is absent from it. -/
theorem history_bound_fifo_scenario :
    (addTurns { currentSessionId := "s" } elevenInputs
      ).conversationHistory.length = 10 ∧
    mkTurn "s" firstOfEleven ∉
      (addTurns { currentSessionId := "s" } elevenInputs).conversationHistory := by
  constructor
  · decide
  · decide

/-! ### Claim C3 -/

set_option maxRecDepth 8000 in
/-- C3 counterexample: nine local passages with distinct keys plus one
web passage sharing the ninth key.  The shared-key passage survives
dedup but sits at position 9, so the `[:8]` cap removes it and the
merged output contains zero passages with that key, not exactly one. -/
theorem merge_shared_prefix_lost_to_cap :
    localDoc "d8" ∈ nineLocals ∧
    contentKey (localDoc "d8") = "d8" ∧
    contentKey webDup = "d8" ∧
    webDup.metadata.sourceType = some "web" ∧
    nineLocals.all (fun d => decide (d.metadata.sourceType = some "local")) = true ∧
    ((deduplicateAndRank (nineLocals ++ [webDup])).filter
        (fun d => decide (contentKey d = "d8"))).length = 0 := by
  refine ⟨by decide, rfl, rfl, rfl, by decide, by decide⟩

/-- C3 (amended): when a passage with the same leading-100-character key
appears in both the local and the web list, the merged output contains
at most one passage with that key, every such passage comes from the
local list, and when the deduplicated list fits the cap of 8 the merged
output contains exactly one passage with that key. -/
theorem merge_shared_prefix_from_local
    (localList webList : List Document) (p : String)
    (hlocal : ∀ d ∈ localList, d.metadata.sourceType = some "local")
    (hweb : ∀ d ∈ webList, d.metadata.sourceType = some "web")
    (l0 : Document) (hl0 : l0 ∈ localList) (hl0k : contentKey l0 = p)
    (w0 : Document) (hw0 : w0 ∈ webList) (hw0k : contentKey w0 = p) :
    ((deduplicateAndRank (localList ++ webList)).filter
        (fun d => decide (contentKey d = p))).length ≤ 1 ∧
    (∀ d ∈ deduplicateAndRank (localList ++ webList),
        contentKey d = p → d ∈ localList) ∧
    ((dedupByContent [] (localList ++ webList)).length ≤ 8 →
      ((deduplicateAndRank (localList ++ webList)).filter
          (fun d => decide (contentKey d = p))).length = 1) := by
  have hfl : (localList ++ webList).filter
      (fun d => decide (d.metadata.sourceType = some "local")) = localList := by
    rw [List.filter_append,
      List.filter_eq_self.mpr (fun d hd => by simp [hlocal d hd]),
      List.filter_eq_nil_iff.mpr (fun d hd => by simp [hweb d hd]),
      List.append_nil]
  have hfw : (localList ++ webList).filter
      (fun d => decide (d.metadata.sourceType = some "web")) = webList := by
    rw [List.filter_append,
      List.filter_eq_nil_iff.mpr (fun d hd => by simp [hlocal d hd]),
      List.filter_eq_self.mpr (fun d hd => by simp [hweb d hd]),
      List.nil_append]
  have hDR : deduplicateAndRank (localList ++ webList) =
      (dedupByContent [] (localList ++ webList)).take 8 := by
    unfold deduplicateAndRank
    rw [hfl, hfw]
  have hone : ((dedupByContent [] (localList ++ webList)).filter
      (fun d => decide (contentKey d = p))).length ≤ 1 :=
    filter_key_length_le_one (dedup_keys_nodup [] _)
  have hsubfilter : List.Sublist
      (((dedupByContent [] (localList ++ webList)).take 8).filter
        (fun d => decide (contentKey d = p)))
      ((dedupByContent [] (localList ++ webList)).filter
        (fun d => decide (contentKey d = p))) :=
    List.Sublist.filter _ (List.take_sublist 8 _)
  refine ⟨?_, ?_, ?_⟩
  · rw [hDR]
    exact le_trans hsubfilter.length_le hone
  · intro d hd hk
    rw [hDR] at hd
    have hdU : d ∈ dedupByContent [] (localList ++ webList) :=
      (List.take_sublist 8 _).subset hd
    rw [dedup_append] at hdU
    rcases List.mem_append.mp hdU with h1 | h2
    · exact mem_of_mem_dedupByContent h1
    · exfalso
      have hpseen : p ∈ seenAfter [] localList := by
        have hks := @key_mem_seenAfter [] localList l0 hl0
        rwa [hl0k] at hks
      exact dedup_key_ne_of_mem_seen hpseen d h2 hk
  · intro h8
    rw [hDR, List.take_of_length_le h8]
    refine le_antisymm hone ?_
    have hcov : ∃ d ∈ dedupByContent [] (localList ++ webList),
        contentKey d = p :=
      dedup_covers (by simp) ⟨l0, List.mem_append_left _ hl0, hl0k⟩
    obtain ⟨d, hd, hdk⟩ := hcov
    have hmemf : d ∈ (dedupByContent [] (localList ++ webList)).filter
        (fun x => decide (contentKey x = p)) :=
      List.mem_filter.mpr ⟨hd, by simp [hdk]⟩
    exact List.length_pos_of_mem hmemf

set_option maxRecDepth 8000 in
/-- Witness for C3 (amended): a single shared-content local/web pair
merges to exactly one passage with the shared key. -/
theorem merge_shared_prefix_from_local_witness :
    ((deduplicateAndRank [sharedLocal, sharedWeb]).filter
        (fun d => decide (contentKey d = "shared"))).length = 1 :=
  (merge_shared_prefix_from_local [sharedLocal] [sharedWeb] "shared"
      (by decide) (by decide)
      sharedLocal (by decide) rfl
      sharedWeb (by decide) rfl).2.2 (by decide)

/-! ### Claim C4 -/

/-- C4: for every pair of local and web input lists, the merged output of
the deduplicate-and-rank step has length at most 8. -/
theorem merged_length_le_eight (localList webList : List Document) :
    (deduplicateAndRank (localList ++ webList)).length ≤ 8 := by
  unfold deduplicateAndRank
  exact List.length_take_le 8 _

/-! ### Claim C10 -/

/-- C10: the merge/deduplicate step silently drops every passage whose
metadata `source_type` is neither `"local"` nor `"web"` (including
passages with no `source_type`): such a passage never appears in the
merged output. -/
theorem merge_drops_unknown_source_type (docs : List Document) (d : Document)
    (hl : d.metadata.sourceType ≠ some "local")
    (hw : d.metadata.sourceType ≠ some "web") :
    d ∉ deduplicateAndRank docs := by
  intro hmem
  unfold deduplicateAndRank at hmem
  have h1 : d ∈ dedupByContent []
      (docs.filter (fun x => decide (x.metadata.sourceType = some "local")) ++
       docs.filter (fun x => decide (x.metadata.sourceType = some "web"))) :=
    (List.take_sublist 8 _).subset hmem
  have h2 := mem_of_mem_dedupByContent h1
  rcases List.mem_append.mp h2 with h3 | h3
  · exact hl (by simpa using (List.mem_filter.mp h3).2)
  · exact hw (by simpa using (List.mem_filter.mp h3).2)

/-- Witness for C10: a passage with no `source_type` at all is absent
from the merged output even though the output is far below the cap. -/
theorem merge_drops_unknown_source_type_witness :
    ({ pageContent := "orphan" } : Document) ∉
      deduplicateAndRank [{ pageContent := "orphan" }] :=
  merge_drops_unknown_source_type _ _ (by decide) (by decide)

/-! ### Claim C6 -/

/-- The truthiness conjunct of `_web_search`'s keep condition is
redundant: `content and len(content) > 50` is equivalent to
`len(content) > 50`. -/
theorem web_keep_condition_eq (r : SearchResult) :
    (decide (r.content ≠ "") && decide (50 < r.content.length)) =
      decide (50 < r.content.length) := by
  by_cases h : 50 < r.content.length
  · have hne : r.content ≠ "" := by
      intro he
      rw [he] at h
      simp at h
    simp [h, hne]
  · simp [h]

/-- C6 counterexample: a raw web result whose content has exactly 50
characters is discarded by `_web_search`, although the claim says every
result with at least 50 characters of content is retained. -/
theorem web_filter_drops_length_50 :
    webResultDocs "q" [{ content := String.mk (List.replicate 50 'a') }] = [] ∧
    ({ content := String.mk (List.replicate 50 'a') } : SearchResult).content.length
      = 50 := by
  constructor
  · rfl
  · decide

/-- C6 (amended): the adapter keeps a raw web result if and only if its
content has strictly more than 50 characters (at least 51); the
nonemptiness test in the code is subsumed by the length test. -/
theorem web_filter_keeps_iff_gt_50 (enhancedQuery : String)
    (results : List SearchResult) :
    webResultDocs enhancedQuery results =
      (results.filter (fun r => decide (50 < r.content.length))).map
        (mkWebDocument enhancedQuery) ∧
    ∀ r : SearchResult,
      (webResultDocs enhancedQuery [r] = [] ↔ ¬ 50 < r.content.length) := by
  constructor
  · unfold webResultDocs
    rw [List.filter_congr (fun r _ => web_keep_condition_eq r)]
  · intro r
    unfold webResultDocs
    by_cases h : 50 < r.content.length
    · rw [List.filter_cons_of_pos (by rw [web_keep_condition_eq]; simpa using h)]
      simp [h]
    · rw [List.filter_cons_of_neg (by rw [web_keep_condition_eq]; simpa using h)]
      simp [h]

/-- Witness for C6 (amended): a 51-character result is kept, and the
keep-iff equivalence holds at that concrete input. -/
theorem web_filter_keeps_iff_gt_50_witness :
    webResultDocs "q" [{ content := String.mk (List.replicate 51 'a') }] =
      ([({ content := String.mk (List.replicate 51 'a') } : SearchResult)].filter
          (fun r => decide (50 < r.content.length))).map (mkWebDocument "q") ∧
    (webResultDocs "q" [{ content := String.mk (List.replicate 51 'a') }] = [] ↔
      ¬ 50 < ({ content := String.mk (List.replicate 51 'a') } :
        SearchResult).content.length) :=
  ⟨(web_filter_keeps_iff_gt_50 "q"
      [{ content := String.mk (List.replicate 51 'a') }]).1,
   (web_filter_keeps_iff_gt_50 "q"
      [{ content := String.mk (List.replicate 51 'a') }]).2
     { content := String.mk (List.replicate 51 'a') }⟩

/-! ### Claim C7 -/

/-- C7 counterexample: the format `"text"` is rejected by
`export_conversation` (the second accepted format is `"txt"`, not
`"text"`), so export does not succeed for the format pair named by the
claim. -/
theorem export_rejects_text_format :
    exportConversation [] "text" = Except.error "Unsupported export format" := rfl

/-- C7 (amended): `export_conversation` succeeds for exactly the two
formats `"json"` and `"txt"`, and for every other format it fails with
the `Unsupported export format` error surfaced to the caller, with no
default fallback. -/
theorem export_succeeds_iff_json_or_txt (hist : List ConversationTurn)
    (fmt : String) :
    ((∃ s, exportConversation hist fmt = Except.ok s) ↔
      (fmt = "json" ∨ fmt = "txt")) ∧
    (fmt ≠ "json" → fmt ≠ "txt" →
      exportConversation hist fmt = Except.error "Unsupported export format") := by
  unfold exportConversation
  by_cases h1 : fmt = "json"
  · rw [if_pos h1]
    exact ⟨⟨fun _ => Or.inl h1, fun _ => ⟨_, rfl⟩⟩, fun hn _ => absurd h1 hn⟩
  · rw [if_neg h1]
    by_cases h2 : fmt = "txt"
    · rw [if_pos h2]
      exact ⟨⟨fun _ => Or.inr h2, fun _ => ⟨_, rfl⟩⟩, fun _ hn => absurd h2 hn⟩
    · rw [if_neg h2]
      refine ⟨⟨fun hs => ?_, fun hor => ?_⟩, fun _ _ => rfl⟩
      · obtain ⟨s, hs⟩ := hs
        exact Except.noConfusion hs
      · rcases hor with rfl | rfl
        · exact absurd rfl h1
        · exact absurd rfl h2

/-- Witness for C7 (amended): the unknown format `"xml"` fails with the
unsupported-format error. -/
theorem export_succeeds_iff_json_or_txt_witness :
    exportConversation [] "xml" = Except.error "Unsupported export format" :=
  (export_succeeds_iff_json_or_txt [] "xml").2 (by decide) (by decide)

/-! ### Claim C8 -/

/-- C8: for every query, the quality analysis of an empty passage list
reports `qualityScore = 0` with exactly the single no-documents
recommendation, and for every non-empty passage list the quality score
is nonzero. -/
theorem quality_zero_iff_empty (q : String) :
    (analyzeRetrievalQuality q []).qualityScore = 0 ∧
    (analyzeRetrievalQuality q []).recommendations =
      ["未检索到文档，请检查查询或知识库"] ∧
    ∀ docs : List Document, docs ≠ [] →
      (analyzeRetrievalQuality q docs).qualityScore ≠ 0 := by
  refine ⟨rfl, rfl, ?_⟩
  intro docs hne
  have hlen : 1 ≤ docs.length := List.length_pos.mpr hne
  simp only [analyzeRetrievalQuality, if_neg hne]
  apply LT.lt.ne'
  refine lt_min (by norm_num) ?_
  refine lt_of_lt_of_le (by norm_num : (0 : ℚ) < 20) ?_
  refine le_trans ?_ (le_add_of_nonneg_right ?_)
  · have hc : (1 : ℚ) ≤ (docs.length : ℚ) := by exact_mod_cast hlen
    nlinarith
  · apply div_nonneg _ (by norm_num)
    apply div_nonneg (Nat.cast_nonneg _) (Nat.cast_nonneg _)

/-- Witness for C8: a singleton passage list has nonzero quality score,
while the empty list scores zero. -/
theorem quality_zero_iff_empty_witness :
    (analyzeRetrievalQuality "q" [{ pageContent := "abc" }]).qualityScore ≠ 0 ∧
    (analyzeRetrievalQuality "q" []).qualityScore = 0 :=
  ⟨(quality_zero_iff_empty "q").2.2 _ (by decide), (quality_zero_iff_empty "q").1⟩

/-! ### Claim C9 -/

set_option maxRecDepth 8000 in
/-- C9 counterexample: calling `get_context_for_query` with
`max_length = 0` does not bound the included snippets by 0: Python's
`max_length or self.max_context_length` treats `0` as falsy and replaces
it with the default 2000, so a snippet is included and the sum of
included snippet lengths exceeds the passed bound. -/
theorem context_zero_maxlength_not_bounded :
    effectiveMaxLength oneTurnMemory (some 0) = 2000 ∧
    0 < ((buildContextParts (effectiveMaxLength oneTurnMemory (some 0)) 0
        (contextSnippets oneTurnMemory "hi")).map String.length).sum := by
  exact ⟨rfl, by decide⟩

/-- C9 (amended): for every nonzero `maxLength` `L` (a passed `0` is
replaced by the default via Python `or`), the greedy loop includes only
whole snippets, in order, stopping at the first snippet that would
overflow; the sum of included snippet lengths is at most `L`, and the
returned string exceeds `L` only by the header and the `"\n\n"`
separators. -/
theorem context_parts_within_bound (mem : ConversationMemory) (query : String)
    (L : Nat) (hL : L ≠ 0) :
    ((buildContextParts L 0 (contextSnippets mem query)).map String.length).sum
        ≤ L ∧
    buildContextParts L 0 (contextSnippets mem query) <+:
      contextSnippets mem query ∧
    (∀ s rest, contextSnippets mem query =
        buildContextParts L 0 (contextSnippets mem query) ++ s :: rest →
      L < ((buildContextParts L 0 (contextSnippets mem query)).map
          String.length).sum + s.length) ∧
    (getContextForQuery mem query (some L)).length ≤
      (contextHeader (buildContextParts L 0 (contextSnippets mem query)).length
        ).length +
        2 * ((buildContextParts L 0 (contextSnippets mem query)).length - 1)
        + L := by
  have heff : effectiveMaxLength mem (some L) = L := by
    simp [effectiveMaxLength, hL]
  have hsum := buildContextParts_sum L (contextSnippets mem query) 0 (Nat.zero_le L)
  rw [Nat.zero_add] at hsum
  refine ⟨hsum, buildContextParts_front L _ 0, ?_, ?_⟩
  · intro s rest he
    have h := buildContextParts_stop L (contextSnippets mem query)
      (buildContextParts L 0 (contextSnippets mem query)) s rest 0 rfl he
    omega
  · unfold getContextForQuery
    rw [heff]
    by_cases hhist : mem.conversationHistory = []
    · rw [if_pos hhist]
      simp
    · rw [if_neg hhist]
      by_cases hparts : buildContextParts L 0 (contextSnippets mem query) = []
      · rw [if_pos hparts]
        simp
      · rw [if_neg hparts]
        rw [String.length_append, length_intercalate]
        have hsep : ("\n\n" : String).length = 2 := rfl
        rw [hsep]
        omega

set_option maxRecDepth 8000 in
/-- Witness for C9 (amended): at the one-turn memory with `L = 2000`,
the included snippet lengths sum to at most 2000 and the included parts
are an in-order whole-snippet selection. -/
theorem context_parts_within_bound_witness :
    ((buildContextParts 2000 0 (contextSnippets oneTurnMemory "hi")).map
        String.length).sum ≤ 2000 ∧
    buildContextParts 2000 0 (contextSnippets oneTurnMemory "hi") <+:
      contextSnippets oneTurnMemory "hi" :=
  ⟨(context_parts_within_bound oneTurnMemory "hi" 2000 (by decide)).1,
   (context_parts_within_bound oneTurnMemory "hi" 2000 (by decide)).2.1⟩

/-! ### Claim C2 -/

/-- C2 counterexample: two turns with equal (zero) keyword overlap with
the query.  The code computes `recency_score = len(history) - index`
which is larger for older turns, so the more recent turn `turnB` gets a
strictly lower total score than the older `turnA`, and the relevance
ordering puts the older turn first — the opposite of the claim. -/
theorem recent_turn_scores_lower :
    overlapCount (extractKeywords "zz") turnA.keywords =
      overlapCount (extractKeywords "zz") turnB.keywords ∧
    totalScore [turnA, turnB] (extractKeywords "zz") turnB <
      totalScore [turnA, turnB] (extractKeywords "zz") turnA ∧
    getRelevantContext [turnA, turnB] "zz" = [turnA, turnB] := by
  refine ⟨rfl, by decide, by decide⟩

/-- C2 (amended): in `_get_relevant_context`, each turn at position `i`
of a duplicate-free history of length `n` scores
`2*keywordOverlap + (n - i)`, where `n - i` is larger for older turns;
hence for two turns in the scored window with equal keyword overlap, the
OLDER turn receives the strictly higher total score and is ordered ahead
of the more recent one in the returned context. -/
theorem relevant_context_older_scores_higher
    (hist : List ConversationTurn) (query : String) (i j : Nat)
    (hi : i < hist.length) (hj : j < hist.length)
    (hnd : hist.Nodup) (hij : i < j) (hwin : hist.length - 5 ≤ i)
    (hov : overlapCount (extractKeywords query) (hist.get ⟨i, hi⟩).keywords =
           overlapCount (extractKeywords query) (hist.get ⟨j, hj⟩).keywords) :
    totalScore hist (extractKeywords query) (hist.get ⟨j, hj⟩) <
      totalScore hist (extractKeywords query) (hist.get ⟨i, hi⟩) ∧
    totalScore hist (extractKeywords query) (hist.get ⟨i, hi⟩) =
      overlapCount (extractKeywords query) (hist.get ⟨i, hi⟩).keywords * 2 +
        (hist.length - i) ∧
    List.Sublist [hist.get ⟨i, hi⟩, hist.get ⟨j, hj⟩]
      (getRelevantContext hist query) := by
  have hne : hist ≠ [] := by
    intro h
    rw [h] at hi
    simp at hi
  have hidxi : List.indexOf (hist.get ⟨i, hi⟩) hist = i := by
    simpa using List.indexOf_getElem hnd i hi
  have hidxj : List.indexOf (hist.get ⟨j, hj⟩) hist = j := by
    simpa using List.indexOf_getElem hnd j hj
  have hscorei : totalScore hist (extractKeywords query) (hist.get ⟨i, hi⟩) =
      overlapCount (extractKeywords query) (hist.get ⟨i, hi⟩).keywords * 2 +
        (hist.length - i) := by
    unfold totalScore
    rw [hidxi]
  have hscorej : totalScore hist (extractKeywords query) (hist.get ⟨j, hj⟩) =
      overlapCount (extractKeywords query) (hist.get ⟨j, hj⟩).keywords * 2 +
        (hist.length - j) := by
    unfold totalScore
    rw [hidxj]
  have hlt : totalScore hist (extractKeywords query) (hist.get ⟨j, hj⟩) <
      totalScore hist (extractKeywords query) (hist.get ⟨i, hi⟩) := by
    rw [hscorei, hscorej, hov]
    omega
  refine ⟨hlt, hscorei, ?_⟩
  have hmemw : ∀ (k : Nat) (hk : k < hist.length), hist.length - 5 ≤ k →
      hist.get ⟨k, hk⟩ ∈ hist.drop (hist.length - 5) := by
    intro k hk hkw
    have hlt2 : k - (hist.length - 5) < (hist.drop (hist.length - 5)).length := by
      rw [List.length_drop]
      omega
    have h2 : (hist.drop (hist.length - 5)).get ⟨k - (hist.length - 5), hlt2⟩ =
        hist.get ⟨k, hk⟩ := by
      simp only [List.get_eq_getElem, List.getElem_drop]
      congr 1
      omega
    rw [← h2]
    exact List.get_mem _ _ _
  have hmi : (totalScore hist (extractKeywords query) (hist.get ⟨i, hi⟩),
        hist.get ⟨i, hi⟩) ∈
      (hist.drop (hist.length - 5)).map
        (fun t => (totalScore hist (extractKeywords query) t, t)) :=
    List.mem_map_of_mem _ (hmemw i hi hwin)
  have hmj : (totalScore hist (extractKeywords query) (hist.get ⟨j, hj⟩),
        hist.get ⟨j, hj⟩) ∈
      (hist.drop (hist.length - 5)).map
        (fun t => (totalScore hist (extractKeywords query) t, t)) :=
    List.mem_map_of_mem _ (hmemw j hj (by omega))
  have hsorted := List.sorted_insertionSort scoreDesc
    ((hist.drop (hist.length - 5)).map
      (fun t => (totalScore hist (extractKeywords query) t, t)))
  have hperm := List.perm_insertionSort scoreDesc
    ((hist.drop (hist.length - 5)).map
      (fun t => (totalScore hist (extractKeywords query) t, t)))
  have hpair := sublist_pair_of_sorted scoreDesc hsorted
    (hperm.mem_iff.mpr hmi) (hperm.mem_iff.mpr hmj)
    (by
      simp only [scoreDesc]
      exact not_le.mpr hlt)
  have hmap := hpair.map Prod.snd
  simp only [getRelevantContext, if_neg hne]
  simpa using hmap

/-- Witness for C2 (amended): on a concrete duplicate-free two-turn
history with equal keyword overlap, the older turn scores strictly
higher and precedes the newer one in the returned context. -/
theorem relevant_context_older_scores_higher_witness :
    totalScore [turnA, turnB] (extractKeywords "qq") turnB <
      totalScore [turnA, turnB] (extractKeywords "qq") turnA ∧
    List.Sublist [turnA, turnB] (getRelevantContext [turnA, turnB] "qq") :=
  ⟨(relevant_context_older_scores_higher [turnA, turnB] "qq" 0 1 (by decide)
      (by decide) (by decide) (by decide) (by decide) (by decide)).1,
   (relevant_context_older_scores_higher [turnA, turnB] "qq" 0 1 (by decide)
      (by decide) (by decide) (by decide) (by decide) (by decide)).2.2⟩

end RagSpec
